import Mathlib

/-!
Shallow embedding of the SQON parser orchestrator (src/lib/parser.ts) and a
verification of the frozen claims about it.

Text is modelled as Lean `String`s whose `data` field is a `List Char`;
line-level machinery works directly on `List Char` so that every definition
is executable by kernel reduction.  JavaScript peculiarities are embedded
explicitly where the source relies on them (string falsiness, `trim`,
`split`, the `^#\d+` regex anchored at the raw start of a line).
-/

set_option maxHeartbeats 1000000
set_option linter.unnecessarySeqFocus false

namespace SQON

/-- JS whitespace (ASCII fragment) as used by `String.prototype.trim`. -/
def isWs (c : Char) : Bool :=
  c = ' ' || c = '\t' || c = '\r' || c = '\n' || c = '\x0b' || c = '\x0c'

/-- Remove trailing whitespace characters. -/
def trimRight : List Char → List Char
  | [] => []
  | c :: cs =>
    let r := trimRight cs
    if r.isEmpty then (if isWs c then [] else [c]) else c :: r

/-- JS `line.trim()` on the character list of a line. -/
def trimChars (cs : List Char) : List Char :=
  trimRight (cs.dropWhile isWs)

/-- JS `s.trim()` at the `String` level. -/
def jsTrimS (s : String) : String :=
  String.mk (trimChars s.data)

/-- Decimal digit character for a value below ten. -/
def digitChar (n : Nat) : Char :=
  Char.ofNat (48 + n)

/-- Fuel-driven decimal printer (most significant digit first). -/
def decDigitsAux : Nat → Nat → List Char
  | 0, _ => []
  | fuel + 1, n =>
    if n < 10 then [digitChar n]
    else decDigitsAux fuel (n / 10) ++ [digitChar (n % 10)]

/-- The decimal digits of `n`, as produced by JS template interpolation. -/
def decDigits (n : Nat) : List Char :=
  decDigitsAux (n + 1) n

/-- The characters of the line `@records`. -/
def recTok : List Char := "@records".data

/-- The characters of the line `@end`. -/
def endTok : List Char := "@end".data

/-- Whether a (trimmed) line starts with the record-marker character. -/
def startsHash : List Char → Bool
  | '#' :: _ => true
  | _ => false

/-- JS `line.replace(/^#\d+/, '#' + n)`: the regex only matches when the raw
line begins with `#` immediately followed by at least one digit. -/
def markerReplace (n : Nat) (line : List Char) : List Char :=
  match line with
  | '#' :: rest =>
    if (rest.takeWhile Char.isDigit).isEmpty then '#' :: rest
    else '#' :: (decDigits n ++ rest.dropWhile Char.isDigit)
  | other => other

/-- One iteration of the `redoc` loop body (src/lib/parser.ts lines 397-411):
state is `(inRecordsSection, newDocNumber)`. -/
def redocStep (st : Bool × Nat) (line : List Char) : (Bool × Nat) × List Char :=
  let t := trimChars line
  if t = recTok then ((true, st.2), line)
  else if t = endTok ∧ st.1 = true then ((false, st.2), line)
  else if st.1 = true ∧ startsHash t = true then ((true, st.2 + 1), markerReplace st.2 line)
  else (st, line)

/-- The whole `redoc` loop over the line list. -/
def redocLines : Bool × Nat → List (List Char) → List (List Char)
  | _, [] => []
  | st, l :: ls => (redocStep st l).2 :: redocLines (redocStep st l).1 ls

/-- JS `content.split('\n')` (an empty string yields one empty line). -/
def splitNl : List Char → List (List Char)
  | [] => [[]]
  | c :: cs =>
    let r := splitNl cs
    if c = '\n' then [] :: r
    else (c :: r.headD []) :: r.tail

/-- JS `updatedLines.join('\n')`. -/
def joinNl : List (List Char) → List Char
  | [] => []
  | [l] => l
  | l :: ls => l ++ '\n' :: joinNl ls

/-- The inline-content path of `SQON.redoc` (src/lib/parser.ts lines 388-424):
split on newlines, renumber record markers, join back, return the text. -/
def redoc (s : String) : String :=
  String.mk (joinNl (redocLines (false, 0) (splitNl s.data)))

/-- Renumbering restricted to the inside of a records section, starting the
ordinal counter at `n`: every line whose trimmed form starts with `#` has its
leading `#<digits>` (if the raw line indeed starts that way) replaced and
consumes one ordinal. -/
def renumber (n : Nat) : List (List Char) → List (List Char)
  | [] => []
  | l :: ls =>
    if startsHash (trimChars l) = true then markerReplace n l :: renumber (n + 1) ls
    else l :: renumber n ls

/-! ## The orchestrator (class `SQON`, src/lib/parser.ts) -/

/-- A parse diagnostic `{line: number | null, message}`. -/
abbrev Err := Option Nat × String

/-- The focus parameter `section?: 'schema' | 'records'` (parser.ts line 21).
`section` is a Lean keyword, hence the field is called `focus` here. -/
inductive Focus where
  | schema
  | records
deriving DecidableEq, Repr

/-- Result shape returned by `parseLines`. -/
structure ParsedResult where
  strict : Bool
  schema : List (String × String)
  validations : List (String × List (String × String))
  records : List (Nat × String)
  errors : List Err
deriving DecidableEq, Repr

/-- Mutable state of one `SQON` instance during `parseLines`. -/
structure PState where
  focus : Option Focus
  lines : List String
  position : Nat
  parsedSchema : List (String × String)
  validations : List (String × List (String × String))
  records : List (Nat × String)
  errors : List Err
  sectionOrder : List String
  strict : Bool
deriving Repr

/-- What `SQONSchema.parseSchema` returns to the orchestrator. -/
structure SchemaOut where
  parsedSchema : List (String × String)
  errors : List Err
  lines : List String
  position : Nat

/-- What `SQONValidation.parseValidation` returns to the orchestrator. -/
structure ValidOut where
  validations : List (String × List (String × String))
  errors : List Err
  lines : List String
  position : Nat

/-- What `SQONRecords.parseRecords` returns to the orchestrator (the
orchestrator reads only `errors`, `records` and `position` from it). -/
structure RecsOut where
  records : List (Nat × String)
  errors : List Err
  position : Nat

/-- The three delegated section parsers, abstracted: their code lives in
src/lib/extends/ which is not part of src/, so orchestrator theorems are
proved for an arbitrary triple and witnesses use spec-modelled instances. -/
structure SubParsers where
  schemaP : List String → Nat → SchemaOut
  validP : List String → Nat → List (String × String) → ValidOut
  recsP : List String → Nat → RecsOut

/-- `this.MAX_ERRORS` (parser.ts line 60). -/
def MAX_ERRORS : Nat := 50

/-- `this.allowedTypes` exactly as initialised in the constructor
(parser.ts lines 61-66); note `Binary` appears twice there. -/
def allowedTypes : List String :=
  ["Number", "String", "Binary", "Date", "Boolean", "Uint8Array", "Binary",
   "Object", "Any[]", "StringArray", "ObjectArray", "NumberArray",
   "Number[]", "String[]", "Object[]", "Null", "undefined", "Array",
   "[]", "Any", "AnyArray"]

/-- `this.validationKeywords` exactly as initialised in the constructor
(parser.ts lines 67-101). -/
def validationKeywords : List (String × List String) :=
  [("custom", ["Any"]),
   ("default", ["Any"]),
   ("isNull", ["Any"]),
   ("min", ["Number", "NumberArray", "Uint8Array"]),
   ("max", ["Number", "NumberArray", "Uint8Array"]),
   ("minLength", ["String", "StringArray", "ObjectArray", "Array", "Object", "NumberArray", "Uint8Array"]),
   ("maxLength", ["String", "StringArray", "ObjectArray", "Array", "Object", "NumberArray", "Uint8Array"]),
   ("maxSize", ["Binary", "Array", "StringArray", "NumberArray", "ObjectArray", "Object", "Uint8Array"]),
   ("required", ["Any"]),
   ("isEqualTo", ["Any"]),
   ("isDate", ["Date"]),
   ("isPositive", ["Number", "NumberArray", "Uint8Array"]),
   ("isNegative", ["Number", "NumberArray", "Uint8Array"]),
   ("isUnique", ["Any"]),
   ("hasProperties", ["Object", "ObjectArray"]),
   ("notNull", ["Any"]),
   ("pattern", ["String"]),
   ("isEmail", ["String", "StringArray"]),
   ("isURL", ["String"]),
   ("isAlpha", ["String"]),
   ("isNumeric", ["String"]),
   ("isAlphanumeric", ["String"]),
   ("isInteger", ["Number"]),
   ("isFloat", ["Number"]),
   ("isBoolean", ["Boolean"]),
   ("isIP", ["String"]),
   ("enum", ["Any"]),
   ("minDate", ["Date"]),
   ("maxDate", ["Date"]),
   ("matchesField", ["Any"]),
   ("trim", ["String"]),
   ("lowercase", ["String"]),
   ("uppercase", ["String"])]

/-- `checkSectionOrder` (parser.ts lines 296-322), including the literal dead
membership test on `@validations` in the `@records` branch. -/
def checkSectionOrder (sec : String) (st : PState) : PState :=
  if sec = "@schema" then
    let e1 := if "@schema" ∈ st.sectionOrder then
        [(some (st.position + 1), "@schema is already opened but not closed.")] else []
    { st with errors := st.errors ++ e1, sectionOrder := st.sectionOrder ++ [sec] }
  else if sec = "@validations" then
    let e1 := if "@schema" ∈ st.sectionOrder then [] else
        [(some (st.position + 1), "@validations must come after @schema.")]
    let e2 := if "@validations" ∈ st.sectionOrder then
        [(some (st.position + 1), "@validations is already opened but not closed.")] else []
    { st with errors := st.errors ++ e1 ++ e2, sectionOrder := st.sectionOrder ++ [sec] }
  else if sec = "@records" then
    let e1 := if "@schema" ∈ st.sectionOrder then [] else
        [(some (st.position + 1), "@records must come after @schema.")]
    let e2 := if "@validations" ∈ st.sectionOrder ∧ "@validations" ∉ st.sectionOrder then
        [(some (st.position + 1), "@records must come after @validations.")] else []
    let e3 := if "@records" ∈ st.sectionOrder then
        [(some (st.position + 1), "@records is already opened but not closed.")] else []
    { st with errors := st.errors ++ e1 ++ e2 ++ e3, sectionOrder := st.sectionOrder ++ [sec] }
  else st

/-- `this.parseSchema()` (parser.ts lines 330-340): delegate, then append at
most `MAX_ERRORS` of the sub-parser errors (`errors.slice(0, 50)`). -/
def doParseSchema (sp : SubParsers) (st : PState) : PState :=
  let r := sp.schemaP st.lines st.position
  { st with parsedSchema := r.parsedSchema,
            errors := st.errors ++ r.errors.take MAX_ERRORS,
            lines := r.lines, position := r.position }

/-- `this.parseValidation()` (parser.ts lines 348-362). -/
def doParseValidation (sp : SubParsers) (st : PState) : PState :=
  let r := sp.validP st.lines st.position st.parsedSchema
  { st with validations := r.validations,
            errors := st.errors ++ r.errors.take MAX_ERRORS,
            lines := r.lines, position := r.position }

/-- `this.parseRecords()` (parser.ts lines 370-378); unlike the other two
wrappers it does not reassign `this.lines`. -/
def doParseRecords (sp : SubParsers) (st : PState) : PState :=
  let r := sp.recsP st.lines st.position
  { st with records := r.records,
            errors := st.errors ++ r.errors.take MAX_ERRORS,
            position := r.position }

/-- JS truthiness of the `parsedSchema` accumulator (parser.ts line 273):
the accumulator is initialised to an object literal and only ever reassigned
from the schema sub-parser's returned map, and a JS object is always truthy,
so the test `!this.parsedSchema` is constantly false. -/
def schemaAccumTruthy (_m : List (String × String)) : Bool := true

/-- The end-of-input checks of `parseLines` (parser.ts lines 272-279). -/
def eofCheck (schema : List (String × String)) (records : List (Nat × String))
    (errors : List Err) : List Err :=
  let e1 := if schemaAccumTruthy schema = false then
      errors ++ [(none, "Missing required section: @schema")] else errors
  if records.isEmpty then e1 ++ [(none, "Missing required section: @records")] else e1

/-- Characters of the directive head `*STRICT=`. -/
def strictHeadT : List Char := "*STRICT=".data

/-- Structural prefix test (JS `line.startsWith(...)`). -/
def isPrefixL : List Char → List Char → Bool
  | [], _ => true
  | _ :: _, [] => false
  | a :: as, b :: bs => a == b && isPrefixL as bs

/-- ASCII fragment of JS `toUpperCase`. -/
def jsToUpperChar (c : Char) : Char :=
  if 'a' ≤ c ∧ c ≤ 'z' then Char.ofNat (c.toNat - 32) else c

/-- `line.split('=')[1]?.trim().toUpperCase()` (parser.ts line 210): the
second `=`-separated segment, trimmed and upper-cased. -/
def strictValueOf (line : String) : String :=
  String.mk (((((line.data.dropWhile (fun c => !(c == '='))).drop 1).takeWhile
    (fun c => !(c == '='))) |> trimChars).map jsToUpperChar)

/-- Outcome of one iteration of the `parseLines` loop. -/
inductive StepRes where
  | cont (st : PState)
  | done (r : ParsedResult)
  | thrown (msg : String)

/-- One iteration of the `while` loop of `parseLines`
(parser.ts lines 205-288), including the end-of-input returns.  The source's
`throw new Error("Invalid section parsing!")` (line 265) guards on
`section !== 'records' && section !== 'schema'`, which is unsatisfiable for
the two-valued focus type, so the focused fall-through only advances. -/
def parseStep (sp : SubParsers) (st : PState) : StepRes :=
  match st.lines.get? st.position with
  | none =>
    match st.focus with
    | none =>
      .done { strict := st.strict, schema := st.parsedSchema,
              validations := st.validations, records := st.records,
              errors := eofCheck st.parsedSchema st.records st.errors }
    | some _ =>
      .done { strict := st.strict, schema := st.parsedSchema,
              validations := st.validations, records := st.records,
              errors := st.errors }
  | some line =>
    if isPrefixL strictHeadT line.data = true then
      if strictValueOf line = "TRUE" then
        match st.focus with
        | some _ => .thrown "Strict-Mode is enabled, please turn it off."
        | none => .cont { st with strict := true, position := st.position + 1 }
      else if strictValueOf line = "FALSE" then
        .cont { st with strict := false, position := st.position + 1 }
      else
        .cont { st with
          errors := st.errors ++
            [(some (st.position + 1), "Invalid *STRICT value: " ++ strictValueOf line ++ ". Expected TRUE or FALSE.")],
          position := st.position + 1 }
    else if line = "@schema" then
      match st.focus with
      | some .schema =>
        let st2 := doParseSchema sp { st with position := st.position + 1 }
        .done { strict := st2.strict, schema := st2.parsedSchema,
                validations := [], records := [], errors := st2.errors }
      | some .records => .cont { st with position := st.position + 1 }
      | none =>
        let st1 := checkSectionOrder "@schema" st
        let st2 := doParseSchema sp { st1 with position := st1.position + 1 }
        .cont { st2 with position := st2.position + 1 }
    else if line = "@validations" then
      match st.focus with
      | some .schema =>
        let st2 := doParseValidation sp { st with position := st.position + 1 }
        .done { strict := st2.strict, schema := [],
                validations := st2.validations, records := [], errors := st2.errors }
      | some .records => .cont { st with position := st.position + 1 }
      | none =>
        let st1 := checkSectionOrder "@validations" st
        let st2 := doParseValidation sp { st1 with position := st1.position + 1 }
        .cont { st2 with position := st2.position + 1 }
    else if line = "@records" then
      match st.focus with
      | some .records =>
        let st2 := doParseRecords sp { st with position := st.position + 1 }
        .done { strict := st2.strict, schema := [], validations := [],
                records := st2.records, errors := st2.errors }
      | some .schema => .cont { st with position := st.position + 1 }
      | none =>
        let st1 := checkSectionOrder "@records" st
        let st2 := doParseRecords sp { st1 with position := st1.position + 1 }
        .cont { st2 with position := st2.position + 1 }
    else if line = "@end" then
      match st.focus with
      | some _ => .cont { st with position := st.position + 1 }
      | none =>
        if st.sectionOrder.isEmpty then
          .cont { st with
            errors := st.errors ++ [(some (st.position + 1), "Unexpected @end without an open section.")],
            position := st.position + 1 }
        else
          let lastSec := st.sectionOrder.getLastD ""
          let e := if lastSec = "@schema" ∨ lastSec = "@validations" ∨ lastSec = "@records"
            then []
            else [(some (st.position + 1), "Unexpected @end for section: " ++ lastSec ++ ".")]
          .cont { st with sectionOrder := st.sectionOrder.dropLast,
                          errors := st.errors ++ e, position := st.position + 1 }
    else
      match st.focus with
      | some _ => .cont { st with position := st.position + 1 }
      | none =>
        .cont { st with
          errors := st.errors ++ [(some (st.position + 1), "Unknown section or command: " ++ line)],
          position := st.position + 1 }

/-- `parseLines` (parser.ts lines 205-288) as a fuel-indexed loop; `none`
means the fuel ran out, `Except.error` models a thrown `Error`. -/
def parseLines (sp : SubParsers) : Nat → PState → Option (Except String ParsedResult)
  | 0, _ => none
  | fuel + 1, st =>
    match parseStep sp st with
    | .cont st' => parseLines sp fuel st'
    | .done r => some (.ok r)
    | .thrown m => some (.error m)

/-- JS truthiness of an optional string constructor argument. -/
def jsTruthyStr : Option String → Bool
  | none => false
  | some s => !(s == "")

/-- Whether the `SQON` constructor throws (parser.ts lines 46-51):
`if (!filePath && !fileContent) throw ...`. -/
def constructorThrows (filePath fileContent : Option String) : Bool :=
  !(jsTruthyStr filePath) && !(jsTruthyStr fileContent)

/-- Fresh parser state as set up by the constructor (parser.ts lines 46-126)
for a given focus and trimmed line buffer. -/
def initState (focus : Option Focus) (lines : List String) : PState :=
  { focus := focus, lines := lines, position := 0, parsedSchema := [],
    validations := [], records := [], errors := [], sectionOrder := [],
    strict := false }

/-- The inline-content line loading of `parse` (parser.ts lines 147-152):
split on newlines, trim each line, drop empties. -/
def loadContent (s : String) : List String :=
  (((splitNl s.data).map (fun l => String.mk (trimChars l))).filter
    (fun l => !(l == "")))

/-! ## Spec-modelled section sub-parsers

The classes `SQONSchema`, `SQONValidation` and `SQONRecords` live in
src/lib/extends/, which is not part of src/.  The instances below are
modelled from the spec (sections 4.2-4.4) and are used only to instantiate
the abstract `SubParsers` in concrete witnesses and counterexamples. -/

/-- Split a line at its first occurrence of `c`. -/
def splitAtChar (c : Char) (cs : List Char) : Option (List Char × List Char) :=
  match cs.dropWhile (fun x => !(x == c)) with
  | [] => none
  | _ :: r => some (cs.takeWhile (fun x => !(x == c)), r)

/-- Read a `field: Type` schema declaration line. -/
def parseFieldLine (l : String) : Option (String × String) :=
  match splitAtChar ':' l.data with
  | some (n, t) => some (String.mk (trimChars n), String.mk (trimChars t))
  | none => none

/-- Modelled from the spec: `SQONSchema.parseSchema`
(src/lib/extends/schema.ts, absent from src/).  Per section 4.2 it scans
forward to the section terminator, translates each declaration line into a
field/TypeTag pair, flags unknown type tokens while continuing, and returns
the field map, its errors, and the cursor just past the terminator. -/
def scanSchema : List String → Nat → (List (String × String)) × List Err × Nat
  | [], pos => ([], [], pos)
  | l :: rest, pos =>
    if l = "@end" then ([], [], pos + 1)
    else
      let (fs, es, p) := scanSchema rest (pos + 1)
      match parseFieldLine l with
      | some (n, t) =>
        if t ∈ allowedTypes then ((n, t) :: fs, es, p)
        else (fs, (some (pos + 1), "Unknown type token: " ++ t) :: es, p)
      | none => (fs, (some (pos + 1), "Malformed schema declaration: " ++ l) :: es, p)

/-- Modelled from the spec: wrapper giving `SQONSchema`'s result shape. -/
def specSchemaP (lines : List String) (pos : Nat) : SchemaOut :=
  let (fs, es, p) := scanSchema (lines.drop pos) pos
  { parsedSchema := fs, errors := es, lines := lines, position := p }

/-- Read a `field: keyword(argument)` validation rule line. -/
def parseRuleLine (l : String) : Option (String × String × String) :=
  match splitAtChar ':' l.data with
  | some (f, r) =>
    match splitAtChar '(' (trimChars r) with
    | some (k, a) =>
      some (String.mk (trimChars f), String.mk k,
            String.mk (a.takeWhile (fun c => !(c == ')'))))
    | none => none
  | none => none

/-- Association lookup in a string-keyed list. -/
def lookupL (k : String) (m : List (String × List String)) : Option (List String) :=
  (m.find? (fun p => p.1 == k)).map (fun p => p.2)

/-- Association lookup in the parsed schema. -/
def lookupS (k : String) (m : List (String × String)) : Option String :=
  (m.find? (fun p => p.1 == k)).map (fun p => p.2)

/-- Modelled from the spec: `SQONValidation.parseValidation`
(src/lib/extends/parseValidation.ts, absent from src/).  Per section 4.3 it
resolves each rule line's field against the schema (unknown field: error,
continue) and checks each keyword against the compatibility matrix (or the
field is typed Any), collecting one error per mismatch. -/
def scanValid (schema : List (String × String)) :
    List String → Nat → (List (String × List (String × String))) × List Err × Nat
  | [], pos => ([], [], pos)
  | l :: rest, pos =>
    if l = "@end" then ([], [], pos + 1)
    else
      let (vs, es, p) := scanValid schema rest (pos + 1)
      match parseRuleLine l with
      | some (f, k, a) =>
        match lookupS f schema with
        | none => (vs, (some (pos + 1), "Field not found in schema: " ++ f) :: es, p)
        | some ty =>
          match lookupL k validationKeywords with
          | none => (vs, (some (pos + 1), "Unknown validation keyword: " ++ k) :: es, p)
          | some tys =>
            if ty = "Any" ∨ tys = ["Any"] ∨ ty ∈ tys then ((f, [(k, a)]) :: vs, es, p)
            else (vs, (some (pos + 1), "Keyword not applicable to field type: " ++ k) :: es, p)
      | none => (vs, (some (pos + 1), "Malformed validation line: " ++ l) :: es, p)

/-- Modelled from the spec: wrapper giving `SQONValidation`'s result shape. -/
def specValidP (lines : List String) (pos : Nat)
    (schema : List (String × String)) : ValidOut :=
  let (vs, es, p) := scanValid schema (lines.drop pos) pos
  { validations := vs, errors := es, lines := lines, position := p }

/-- Read a `#<ordinal> <value>` record line. -/
def parseRecLine (l : String) : Option (Nat × String) :=
  match l.data with
  | '#' :: rest =>
    let ds := rest.takeWhile Char.isDigit
    if ds.isEmpty then none
    else some (ds.foldl (fun a c => a * 10 + (c.toNat - 48)) 0,
               String.mk (trimChars (rest.dropWhile Char.isDigit)))
  | _ => none

/-- Modelled from the spec: `SQONRecords.parseRecords`
(src/lib/extends/parseRecords.ts, absent from src/).  Per section 4.4 it
parses one document per ordinal marker until the terminator. -/
def scanRecs : List String → Nat → (List (Nat × String)) × List Err × Nat
  | [], pos => ([], [], pos)
  | l :: rest, pos =>
    if l = "@end" then ([], [], pos + 1)
    else
      let (rs, es, p) := scanRecs rest (pos + 1)
      match parseRecLine l with
      | some d => (d :: rs, es, p)
      | none => (rs, (some (pos + 1), "Malformed record line: " ++ l) :: es, p)

/-- Modelled from the spec: wrapper giving `SQONRecords`'s result shape,
with the 500-record cap and its truncation diagnostic of section 4.4. -/
def specRecsP (lines : List String) (pos : Nat) : RecsOut :=
  let (rs, es, p) := scanRecs (lines.drop pos) pos
  if rs.length > 500 then
    { records := rs.take 500,
      errors := es ++ [(none, "Record cap reached: further records dropped")],
      position := p }
  else { records := rs, errors := es, position := p }

/-- The spec-modelled triple, used to instantiate orchestrator runs. -/
def specSubs : SubParsers :=
  { schemaP := specSchemaP, validP := specValidP, recsP := specRecsP }

/-! ## The spec's TypeTag vocabulary and compatibility matrix (section 6) -/

/-- The 20-token allowed TypeTag vocabulary exactly as the spec lists it. -/
def specAllowedTypes : List String :=
  ["Number", "String", "Binary", "Date", "Boolean", "byte-array", "Object",
   "Any[]", "StringArray", "ObjectArray", "NumberArray", "Number[]",
   "String[]", "Object[]", "Null", "undefined", "Array", "[]", "Any",
   "AnyArray"]

/-- The keyword-to-TypeTag compatibility matrix exactly as the spec lists
it. -/
def specMatrix : List (String × List String) :=
  [("custom", ["Any"]), ("default", ["Any"]), ("isNull", ["Any"]),
   ("required", ["Any"]), ("isEqualTo", ["Any"]), ("isUnique", ["Any"]),
   ("notNull", ["Any"]), ("enum", ["Any"]), ("matchesField", ["Any"]),
   ("min", ["Number", "NumberArray", "byte-array"]),
   ("max", ["Number", "NumberArray", "byte-array"]),
   ("isPositive", ["Number", "NumberArray", "byte-array"]),
   ("isNegative", ["Number", "NumberArray", "byte-array"]),
   ("minLength", ["String", "StringArray", "ObjectArray", "Array", "Object", "NumberArray", "byte-array"]),
   ("maxLength", ["String", "StringArray", "ObjectArray", "Array", "Object", "NumberArray", "byte-array"]),
   ("maxSize", ["Binary", "Array", "StringArray", "NumberArray", "ObjectArray", "Object", "byte-array"]),
   ("isDate", ["Date"]), ("minDate", ["Date"]), ("maxDate", ["Date"]),
   ("hasProperties", ["Object", "ObjectArray"]),
   ("pattern", ["String"]), ("isURL", ["String"]), ("isAlpha", ["String"]),
   ("isNumeric", ["String"]), ("isAlphanumeric", ["String"]),
   ("isIP", ["String"]), ("trim", ["String"]), ("lowercase", ["String"]),
   ("uppercase", ["String"]),
   ("isEmail", ["String", "StringArray"]),
   ("isInteger", ["Number"]), ("isFloat", ["Number"]),
   ("isBoolean", ["Boolean"])]

/-- Rename the spec's descriptive `byte-array` token to the source's literal
`Uint8Array` token. -/
def renameTag (s : String) : String :=
  if s = "byte-array" then "Uint8Array" else s

/-- The spec matrix with `byte-array` renamed to `Uint8Array`. -/
def specMatrixRenamed : List (String × List String) :=
  specMatrix.map (fun p => (p.1, p.2.map renameTag))

/-- Two string lists denote the same set. -/
def listSetEqStr (a b : List String) : Bool :=
  a.all (fun x => b.contains x) && b.all (fun x => a.contains x)

/-- Two string-keyed matrices agree: every key of `a` is a key of `b` with
the same set of types, and every key of `b` occurs in `a`. -/
def matrixSetEq (a b : List (String × List String)) : Bool :=
  (a.all (fun p =>
    match lookupL p.1 b with
    | some ts => listSetEqStr p.2 ts
    | none => false)) &&
  (b.all (fun p => (lookupL p.1 a).isSome))

/-! ## Helper lemmas on characters, digits and lines -/

theorem dropWhile_append_all {p : Char → Bool} {a : List Char} (b : List Char)
    (h : ∀ c ∈ a, p c = true) : (a ++ b).dropWhile p = b.dropWhile p := by
  induction a with
  | nil => rfl
  | cons x xs ih =>
    have hx : p x = true := h x (List.mem_cons_self x xs)
    simp only [List.cons_append, List.dropWhile_cons, hx, if_true]
    exact ih (fun c hc => h c (List.mem_cons_of_mem x hc))

theorem takeWhile_append_all {p : Char → Bool} {a : List Char} (b : List Char)
    (h : ∀ c ∈ a, p c = true) : (a ++ b).takeWhile p = a ++ b.takeWhile p := by
  induction a with
  | nil => rfl
  | cons x xs ih =>
    have hx : p x = true := h x (List.mem_cons_self x xs)
    simp only [List.cons_append, List.takeWhile_cons, hx, if_true, List.cons.injEq, true_and]
    exact ih (fun c hc => h c (List.mem_cons_of_mem x hc))

theorem dropWhile_idem {p : Char → Bool} (l : List Char) :
    (l.dropWhile p).dropWhile p = l.dropWhile p := by
  induction l with
  | nil => rfl
  | cons x xs ih =>
    by_cases hx : p x = true
    · simp only [List.dropWhile_cons, hx, if_true]
      exact ih
    · have hx' : p x = false := by revert hx; cases p x <;> simp
      simp [List.dropWhile_cons, hx']

theorem digitChar_isDigit {n : Nat} (h : n < 10) : (digitChar n).isDigit = true := by
  interval_cases n <;> decide

theorem decDigitsAux_all_digit :
    ∀ fuel n c, c ∈ decDigitsAux fuel n → c.isDigit = true := by
  intro fuel
  induction fuel with
  | zero => intro n c hc; simp [decDigitsAux] at hc
  | succ f ih =>
    intro n c hc
    by_cases h : n < 10
    · simp only [decDigitsAux, h, if_true, List.mem_singleton] at hc
      subst hc; exact digitChar_isDigit h
    · simp only [decDigitsAux, h, if_false, List.mem_append, List.mem_singleton] at hc
      rcases hc with hc | hc
      · exact ih _ _ hc
      · subst hc; exact digitChar_isDigit (Nat.mod_lt _ (by omega))

theorem decDigits_all_digit {n : Nat} {c : Char} (hc : c ∈ decDigits n) :
    c.isDigit = true :=
  decDigitsAux_all_digit _ _ _ hc

theorem decDigits_ne_nil (n : Nat) : decDigits n ≠ [] := by
  unfold decDigits decDigitsAux
  by_cases h : n < 10 <;> simp [h]

theorem isEmpty_false_of_ne_nil {l : List Char} (h : l ≠ []) : l.isEmpty = false := by
  cases l with
  | nil => exact absurd rfl h
  | cons x xs => rfl

theorem trimRight_hash (xs : List Char) :
    trimRight ('#' :: xs) =
      (if (trimRight xs).isEmpty then ['#'] else '#' :: trimRight xs) := by
  simp only [trimRight]
  by_cases h : (trimRight xs).isEmpty <;> simp [h, isWs]

theorem startsHash_trim_hash (xs : List Char) :
    startsHash (trimChars ('#' :: xs)) = true := by
  have hdrop : ('#' :: xs).dropWhile isWs = '#' :: xs := by
    simp [List.dropWhile_cons, isWs]
  unfold trimChars
  rw [hdrop, trimRight_hash]
  by_cases h : (trimRight xs).isEmpty <;> simp [h, startsHash]

theorem startsHash_ne_recTok {t : List Char} (h : startsHash t = true) : t ≠ recTok := by
  intro he; subst he; simp [startsHash, recTok] at h

theorem startsHash_ne_endTok {t : List Char} (h : startsHash t = true) : t ≠ endTok := by
  intro he; subst he; simp [startsHash, endTok] at h

/-- Replacing a marker either leaves the line unchanged or rewrites a leading
`#<digits>` prefix. -/
theorem markerReplace_cases (n : Nat) (line : List Char) :
    markerReplace n line = line ∨
    ∃ rest, line = '#' :: rest ∧ (rest.takeWhile Char.isDigit).isEmpty = false ∧
      markerReplace n line = '#' :: (decDigits n ++ rest.dropWhile Char.isDigit) := by
  cases line with
  | nil => exact Or.inl rfl
  | cons c rest =>
    by_cases hc : c = '#'
    · subst hc
      by_cases h : (rest.takeWhile Char.isDigit).isEmpty
      · exact Or.inl (by simp [markerReplace, h])
      · refine Or.inr ⟨rest, rfl, by simpa using h, ?_⟩
        simp [markerReplace, h]
    · left
      unfold markerReplace
      split
      · rename_i heq
        exact absurd (List.cons.injEq .. ▸ congrArg id heq) (by simp [hc])
      · rfl

/-- A rewritten marker line is a fixed point of `markerReplace` at the same
ordinal. -/
theorem markerReplace_fixed (n : Nat) (rest : List Char) :
    markerReplace n ('#' :: (decDigits n ++ rest.dropWhile Char.isDigit)) =
      '#' :: (decDigits n ++ rest.dropWhile Char.isDigit) := by
  have hal : ∀ c ∈ decDigits n, Char.isDigit c = true := fun c hc => decDigits_all_digit hc
  have htw : ((decDigits n ++ rest.dropWhile Char.isDigit).takeWhile Char.isDigit).isEmpty = false := by
    rw [takeWhile_append_all _ hal]
    exact isEmpty_false_of_ne_nil (by
      intro h
      exact decDigits_ne_nil n (List.append_eq_nil.mp h).1)
  have hdw : (decDigits n ++ rest.dropWhile Char.isDigit).dropWhile Char.isDigit =
      rest.dropWhile Char.isDigit := by
    rw [dropWhile_append_all _ hal, dropWhile_idem]
  simp only [markerReplace, htw, Bool.false_eq_true, if_false, hdw]

/-- Branch-free unfolding of `redocStep`. -/
theorem redocStep_eq (st : Bool × Nat) (l : List Char) :
    redocStep st l =
      if trimChars l = recTok then ((true, st.2), l)
      else if trimChars l = endTok ∧ st.1 = true then ((false, st.2), l)
      else if st.1 = true ∧ startsHash (trimChars l) = true then
        ((true, st.2 + 1), markerReplace st.2 l)
      else (st, l) := rfl

/-- One `redoc` iteration either keeps the line or fires the marker branch. -/
theorem redocStep_snd_cases (st : Bool × Nat) (l : List Char) :
    (redocStep st l).2 = l ∨
      (redocStep st l = ((true, st.2 + 1), markerReplace st.2 l) ∧
       st.1 = true ∧ startsHash (trimChars l) = true) := by
  rw [redocStep_eq]
  split_ifs with hA hB hC
  · exact Or.inl rfl
  · exact Or.inl rfl
  · exact Or.inr ⟨rfl, hC⟩
  · exact Or.inl rfl

/-- Processing its own output from the same incoming state, one `redoc`
iteration is a no-op: same output line and same next state. -/
theorem redocStep_idem (st : Bool × Nat) (l : List Char) :
    redocStep st (redocStep st l).2 = redocStep st l := by
  rcases redocStep_snd_cases st l with h | ⟨heq, hin, _⟩
  · rw [h]
  · rcases markerReplace_cases st.2 l with hm | ⟨rest, _, _, hm⟩
    · have h2 : (redocStep st l).2 = l := by rw [heq, hm]
      rw [h2]
    · have h2 : (redocStep st l).2 = '#' :: (decDigits st.2 ++ rest.dropWhile Char.isDigit) := by
        rw [heq, hm]
      have hsh : startsHash (trimChars ('#' :: (decDigits st.2 ++ rest.dropWhile Char.isDigit))) = true :=
        startsHash_trim_hash _
      rw [h2, heq, hm, redocStep_eq,
          if_neg (startsHash_ne_recTok hsh),
          if_neg (fun hc => startsHash_ne_endTok hsh hc.1),
          if_pos ⟨hin, hsh⟩, markerReplace_fixed]

/-- Second pass of the `redoc` loop over its own output is the identity. -/
theorem redocLines_idem (ls : List (List Char)) :
    ∀ st, redocLines st (redocLines st ls) = redocLines st ls := by
  induction ls with
  | nil => intro st; rfl
  | cons l ls ih =>
    intro st
    simp only [redocLines]
    have h := redocStep_idem st l
    rw [h]
    exact congrArg _ (ih _)

theorem splitNl_ne_nil (cs : List Char) : splitNl cs ≠ [] := by
  cases cs with
  | nil => simp [splitNl]
  | cons c cs =>
    simp only [splitNl]
    by_cases h : c = '\n' <;> simp [h]

theorem splitNl_no_nl (cs : List Char) : ∀ l ∈ splitNl cs, '\n' ∉ l := by
  induction cs with
  | nil => intro l hl; simp [splitNl] at hl; simp [hl]
  | cons c cs ih =>
    intro l hl
    simp only [splitNl] at hl
    by_cases h : c = '\n'
    · simp only [h, if_true] at hl
      rcases List.mem_cons.mp hl with h1 | h1
      · simp [h1]
      · exact ih l h1
    · simp only [h, if_false] at hl
      obtain ⟨hd, tl, heq⟩ : ∃ hd tl, splitNl cs = hd :: tl := by
        cases hh : splitNl cs with
        | nil => exact absurd hh (splitNl_ne_nil cs)
        | cons hd tl => exact ⟨hd, tl, rfl⟩
      rw [heq] at hl
      simp only [List.headD_cons, List.tail_cons] at hl
      rcases List.mem_cons.mp hl with h1 | h1
      · subst h1
        intro hm
        rcases List.mem_cons.mp hm with h2 | h2
        · exact h h2.symm
        · exact ih hd (heq ▸ List.mem_cons_self hd tl) h2
      · exact ih l (heq ▸ List.mem_cons_of_mem hd h1)

theorem splitNl_single {cs : List Char} (h : '\n' ∉ cs) : splitNl cs = [cs] := by
  induction cs with
  | nil => rfl
  | cons c cs ih =>
    have hc : c ≠ '\n' := fun he => h (he ▸ List.mem_cons_self c cs)
    have ih' := ih (fun hm => h (List.mem_cons_of_mem c hm))
    simp [splitNl, hc, ih']

theorem splitNl_glue {l : List Char} (rest : List Char) (h : '\n' ∉ l) :
    splitNl (l ++ '\n' :: rest) = l :: splitNl rest := by
  induction l with
  | nil => simp [splitNl]
  | cons c cs ih =>
    have hc : c ≠ '\n' := fun he => h (he ▸ List.mem_cons_self c cs)
    have ih' := ih (fun hm => h (List.mem_cons_of_mem c hm))
    simp [splitNl, hc, ih']

/-- `join` then `split` is the identity on a nonempty list of newline-free
lines. -/
theorem splitNl_joinNl (ls : List (List Char)) (hne : ls ≠ [])
    (h : ∀ l ∈ ls, '\n' ∉ l) : splitNl (joinNl ls) = ls := by
  induction ls with
  | nil => exact absurd rfl hne
  | cons l ls ih =>
    cases ls with
    | nil => exact splitNl_single (h l (List.mem_cons_self l []))
    | cons l2 ls2 =>
      have hjoin : joinNl (l :: l2 :: ls2) = l ++ '\n' :: joinNl (l2 :: ls2) := rfl
      rw [hjoin, splitNl_glue _ (h l (List.mem_cons_self l _))]
      exact congrArg _ (ih (by simp) (fun x hx => h x (List.mem_cons_of_mem l hx)))

theorem mem_of_mem_dropWhile {p : Char → Bool} {c : Char} {l : List Char}
    (h : c ∈ l.dropWhile p) : c ∈ l := by
  induction l with
  | nil => simp [List.dropWhile] at h
  | cons x xs ih =>
    by_cases hx : p x = true
    · simp only [List.dropWhile_cons, hx, if_true] at h
      exact List.mem_cons_of_mem x (ih h)
    · have hx' : p x = false := by revert hx; cases p x <;> simp
      simp only [List.dropWhile_cons, hx', Bool.false_eq_true, if_false] at h
      exact h

/-- A `redoc` iteration never introduces a newline into a line. -/
theorem redocStep_no_nl (st : Bool × Nat) (l : List Char) (h : '\n' ∉ l) :
    '\n' ∉ (redocStep st l).2 := by
  rcases redocStep_snd_cases st l with he | ⟨heq, _, _⟩
  · rw [he]; exact h
  · have he : (redocStep st l).2 = markerReplace st.2 l := by rw [heq]
    rcases markerReplace_cases st.2 l with hm | ⟨rest, hline, _, hm⟩
    · rw [he, hm]; exact h
    · rw [he, hm]
      intro hmem
      rcases List.mem_cons.mp hmem with h1 | h1
      · exact absurd h1.symm (by decide)
      · rcases List.mem_append.mp h1 with h2 | h2
        · have := decDigits_all_digit h2
          simp [Char.isDigit] at this
        · exact h (hline ▸ List.mem_cons_of_mem _ (mem_of_mem_dropWhile h2))

theorem redocLines_no_nl (ls : List (List Char)) :
    ∀ st, (∀ l ∈ ls, '\n' ∉ l) → ∀ l ∈ redocLines st ls, '\n' ∉ l := by
  induction ls with
  | nil => intro st _ l hl; simp [redocLines] at hl
  | cons x xs ih =>
    intro st h l hl
    simp only [redocLines] at hl
    rcases List.mem_cons.mp hl with h1 | h1
    · subst h1
      exact redocStep_no_nl st x (h x (List.mem_cons_self x xs))
    · exact ih _ (fun y hy => h y (List.mem_cons_of_mem x hy)) l h1

theorem redocLines_ne_nil {ls : List (List Char)} (h : ls ≠ []) :
    ∀ st, redocLines st ls ≠ [] := by
  cases ls with
  | nil => exact absurd rfl h
  | cons x xs => intro st; simp [redocLines]

/-- Outside a records section the loop copies lines and keeps its state, as
long as no line trims to `@records`. -/
theorem redocLines_outside (pre : List (List Char)) (n : Nat) (rest : List (List Char))
    (h : ∀ l ∈ pre, trimChars l ≠ recTok) :
    redocLines (false, n) (pre ++ rest) = pre ++ redocLines (false, n) rest := by
  induction pre with
  | nil => rfl
  | cons x xs ih =>
    have hx : trimChars x ≠ recTok := h x (List.mem_cons_self x xs)
    have hstep : redocStep (false, n) x = ((false, n), x) := by
      rw [redocStep_eq, if_neg hx, if_neg (fun hc => by simpa using hc.2),
          if_neg (fun hc => by simpa using hc.1)]
    simp only [List.cons_append, redocLines, hstep]
    exact congrArg _ (ih (fun l hl => h l (List.mem_cons_of_mem x hl)))

/-- Inside a records section the loop renumbers marker lines in encounter
order, as long as no line trims to `@records` or `@end`. -/
theorem redocLines_inside (body : List (List Char)) :
    ∀ n rest, (∀ l ∈ body, trimChars l ≠ recTok ∧ trimChars l ≠ endTok) →
    ∃ m, redocLines (true, n) (body ++ rest) =
      renumber n body ++ redocLines (true, m) rest := by
  induction body with
  | nil => intro n rest _; exact ⟨n, rfl⟩
  | cons x xs ih =>
    intro n rest h
    have hx := h x (List.mem_cons_self x xs)
    by_cases hsh : startsHash (trimChars x) = true
    · have hstep : redocStep (true, n) x = ((true, n + 1), markerReplace n x) := by
        rw [redocStep_eq, if_neg hx.1, if_neg (fun hc => hx.2 hc.1), if_pos ⟨rfl, hsh⟩]
      obtain ⟨m, hm⟩ := ih (n + 1) rest (fun l hl => h l (List.mem_cons_of_mem x hl))
      refine ⟨m, ?_⟩
      have hren : renumber n (x :: xs) = markerReplace n x :: renumber (n + 1) xs := by
        simp [renumber, hsh]
      simp only [List.cons_append, redocLines, hstep, List.append_eq]
      rw [hm, hren, List.cons_append]
    · have hstep : redocStep (true, n) x = ((true, n), x) := by
        rw [redocStep_eq, if_neg hx.1, if_neg (fun hc => hx.2 hc.1),
            if_neg (fun hc => hsh hc.2)]
      obtain ⟨m, hm⟩ := ih n rest (fun l hl => h l (List.mem_cons_of_mem x hl))
      refine ⟨m, ?_⟩
      have hren : renumber n (x :: xs) = x :: renumber n xs := by
        simp [renumber, hsh]
      simp only [List.cons_append, redocLines, hstep, List.append_eq]
      rw [hm, hren, List.cons_append]

/-- Full renumbering shape of the `redoc` loop on a single records section. -/
theorem redocLines_section (pre body post : List (List Char))
    (h1 : ∀ l ∈ pre, trimChars l ≠ recTok)
    (h2 : ∀ l ∈ body, trimChars l ≠ recTok ∧ trimChars l ≠ endTok)
    (h3 : ∀ l ∈ post, trimChars l ≠ recTok) :
    redocLines (false, 0) (pre ++ recTok :: (body ++ endTok :: post)) =
      pre ++ recTok :: (renumber 0 body ++ endTok :: post) := by
  rw [redocLines_outside pre 0 _ h1]
  have hrec : redocStep (false, 0) recTok = ((true, 0), recTok) := by
    rw [redocStep_eq, if_pos (by decide)]
  simp only [redocLines, hrec]
  obtain ⟨m, hm⟩ := redocLines_inside body 0 (endTok :: post) h2
  rw [hm]
  have hend : redocStep (true, m) endTok = ((false, m), endTok) := by
    rw [redocStep_eq, if_neg (by decide), if_pos ⟨by decide, rfl⟩]
  simp only [redocLines, hend]
  have hpost : redocLines (false, m) post = post := by
    have := redocLines_outside post m [] h3
    simpa [redocLines] using this
  rw [hpost]

/-! ## Claim theorems: the renumbering utility -/

/-- C10: the inline renumbering transform is idempotent: for every input
string `s`, `redoc (redoc s) = redoc s`. -/
theorem redoc_idempotent (s : String) : redoc (redoc s) = redoc s := by
  unfold redoc
  have hdata : ∀ cs : List Char, (String.mk cs).data = cs := fun _ => rfl
  rw [hdata]
  have h1 : ∀ l ∈ splitNl s.data, '\n' ∉ l := splitNl_no_nl s.data
  have h2 : redocLines (false, 0) (splitNl s.data) ≠ [] :=
    redocLines_ne_nil (splitNl_ne_nil s.data) _
  have h3 : ∀ l ∈ redocLines (false, 0) (splitNl s.data), '\n' ∉ l :=
    redocLines_no_nl _ _ h1
  rw [splitNl_joinNl _ h2 h3, redocLines_idem]

/-- C6 (amended): on a text consisting of a prefix, one `@records` line, a
section body none of whose lines trims to `@records` or `@end`, an `@end`
line, and a suffix that reopens no records section, `redoc` returns the text
with the prefix and suffix byte-identical and the body renumbered in
encounter order: each body line whose trimmed form starts with `#` consumes
one sequential ordinal (from `#0`), and its leading `#<digits>` is rewritten
to that ordinal exactly when the digits start the raw (unindented) line. -/
theorem redoc_renumbers_section (pre body post : List (List Char))
    (h1 : ∀ l ∈ pre, trimChars l ≠ recTok)
    (h2 : ∀ l ∈ body, trimChars l ≠ recTok ∧ trimChars l ≠ endTok)
    (h3 : ∀ l ∈ post, trimChars l ≠ recTok)
    (hnl : ∀ l ∈ pre ++ recTok :: (body ++ endTok :: post), '\n' ∉ l) :
    redoc (String.mk (joinNl (pre ++ recTok :: (body ++ endTok :: post)))) =
      String.mk (joinNl (pre ++ recTok :: (renumber 0 body ++ endTok :: post))) := by
  unfold redoc
  have hdata : ∀ cs : List Char, (String.mk cs).data = cs := fun _ => rfl
  rw [hdata]
  have hne : pre ++ recTok :: (body ++ endTok :: post) ≠ [] := by
    intro h
    have := congrArg List.length h
    simp at this
  rw [splitNl_joinNl _ hne hnl, redocLines_section pre body post h1 h2 h3]

/-- Concrete instance for `redoc_renumbers_section`: a marker line `#7 a`, a
non-marker line and an indented marker line ` #9 b` inside the section. -/
def c6pre : List (List Char) := ["intro".data]

/-- Concrete body for the `redoc_renumbers_section` witness. -/
def c6body : List (List Char) := ["#7 a".data, "x".data, " #9 b".data]

/-- Concrete suffix for the `redoc_renumbers_section` witness. -/
def c6post : List (List Char) := ["outro".data]

/-- Witness for C6 (amended) at a concrete input: the hypotheses hold and the
renumbering equation evaluates as the theorem states. -/
theorem redoc_renumbers_section_witness :
    (∀ l ∈ c6pre, trimChars l ≠ recTok) ∧
    redoc (String.mk (joinNl (c6pre ++ recTok :: (c6body ++ endTok :: c6post)))) =
      String.mk (joinNl (c6pre ++ recTok :: (renumber 0 c6body ++ endTok :: c6post))) :=
  ⟨by decide,
   redoc_renumbers_section c6pre c6body c6post (by decide) (by decide) (by decide) (by decide)⟩

/-- C6 counterexample: the indented marker line ` #7` lies between
`@records` and `@end`, yet `redoc` leaves the whole text unchanged (the
`^#\d+` pattern is anchored at the raw start of the line), so not every
marker in the section is rewritten to the sequential ordinal `#0`. -/
theorem redoc_counterexample :
    redoc "@records\n #7\n@end" = "@records\n #7\n@end" ∧
    redoc "@records\n #7\n@end" ≠ "@records\n #0\n@end" := by
  constructor
  · decide
  · decide

/-! ## Claim theorems: construction, vocabulary, matrix -/

/-- C3 counterexample: with both a file path and inline content supplied the
constructor does not fail (the source only rejects the case where neither is
truthy), contradicting the claim that exactly one must be supplied. -/
theorem constructor_both_counterexample :
    constructorThrows (some "a.sqon") (some "@schema") = false := by
  decide

/-- C3 (amended): construction fails with a configuration error if and only
if neither a truthy file path nor truthy inline content is supplied;
supplying exactly one succeeds, and supplying both also succeeds. -/
theorem constructor_requires_some_input (fp fc : Option String) :
    constructorThrows fp fc = false ↔ (jsTruthyStr fp = true ∨ jsTruthyStr fc = true) := by
  rcases hfp : jsTruthyStr fp <;> rcases hfc : jsTruthyStr fc <;>
    simp [constructorThrows, hfp, hfc]

/-- C5 counterexample: the spec's 20-token vocabulary contains the literal
token `byte-array`, but the source's `allowedTypes` does not; the source
instead carries the token `Uint8Array`, so the two case-sensitive sets are
not equal as the claim states. -/
theorem allowedTypes_counterexample :
    allowedTypes.contains "byte-array" = false ∧
    allowedTypes.contains "Uint8Array" = true := by
  constructor
  · decide
  · decide

/-- C5 (amended): after renaming the spec's descriptive token `byte-array`
to the source's literal token `Uint8Array`, the source's `allowedTypes`
equals the spec's 20-token vocabulary as a set (the source list repeats
`Binary`, so set equality is the right comparison), and the source's
`validationKeywords` matrix has exactly the spec's keywords, each mapped to
exactly the spec's set of applicable TypeTags. -/
theorem vocabulary_matrix_match :
    listSetEqStr (specAllowedTypes.map renameTag) allowedTypes = true ∧
    matrixSetEq specMatrixRenamed validationKeywords = true ∧
    matrixSetEq validationKeywords specMatrixRenamed = true := by
  refine ⟨by decide, by decide, by decide⟩

/-! ## Claim theorems: orchestrator behaviour -/

/-- C7: at end of input in non-focused mode the loop returns through
`eofCheck`, and the only diagnostic that check can append is the file-level
(line `null`) missing `@records` error, appended exactly when the record
list is empty; the missing `@schema` branch never fires for any input,
because its truthiness test is on the schema accumulator, which is always
an object. -/
theorem eof_missing_records_iff_empty :
    (∀ (schema : List (String × String)) (records : List (Nat × String)) (errors : List Err),
      eofCheck schema records errors =
        errors ++
          (if records.isEmpty then [((none : Option Nat), "Missing required section: @records")] else [])) ∧
    (∀ (sp : SubParsers) (st : PState), st.focus = none →
      st.lines.get? st.position = none →
      parseStep sp st = .done { strict := st.strict, schema := st.parsedSchema,
                                validations := st.validations, records := st.records,
                                errors := eofCheck st.parsedSchema st.records st.errors }) := by
  constructor
  · intro schema records errors
    unfold eofCheck schemaAccumTruthy
    by_cases h : records.isEmpty <;> simp [h]
  · intro sp st hf hget
    unfold parseStep
    simp only [hget, hf]

/-- Witness for C7 at a concrete exhausted state: the check appends only
the missing-records diagnostic and the loop returns through it. -/
theorem eof_missing_records_iff_empty_witness :
    ((initState none []).focus = none) ∧
    (eofCheck [] [] [] = [((none : Option Nat), "Missing required section: @records")]) ∧
    parseStep specSubs (initState none []) =
      .done { strict := false, schema := [], validations := [], records := [],
              errors := eofCheck [] [] [] } :=
  ⟨rfl,
   eof_missing_records_iff_empty.1 [] [] [],
   eof_missing_records_iff_empty.2 specSubs (initState none []) rfl rfl⟩

theorem take_length_le_cap (n : Nat) (l : List Err) : (l.take n).length ≤ n := by
  simp only [List.length_take]
  exact Nat.min_le_left _ _

/-- C9: each sub-parser delegation appends exactly the first `MAX_ERRORS`
(fifty) of the returned errors to the global list — overflow is dropped —
so every section's contribution is at most fifty errors, for any sub-parser
output whatsoever. -/
theorem subparser_error_cap (sp : SubParsers) (st : PState) :
    ((doParseSchema sp st).errors =
      st.errors ++ (sp.schemaP st.lines st.position).errors.take MAX_ERRORS) ∧
    ((doParseValidation sp st).errors =
      st.errors ++ (sp.validP st.lines st.position st.parsedSchema).errors.take MAX_ERRORS) ∧
    ((doParseRecords sp st).errors =
      st.errors ++ (sp.recsP st.lines st.position).errors.take MAX_ERRORS) ∧
    (doParseSchema sp st).errors.length ≤ st.errors.length + MAX_ERRORS ∧
    (doParseValidation sp st).errors.length ≤ st.errors.length + MAX_ERRORS ∧
    (doParseRecords sp st).errors.length ≤ st.errors.length + MAX_ERRORS := by
  refine ⟨rfl, rfl, rfl, ?_, ?_, ?_⟩
  · have h := take_length_le_cap MAX_ERRORS (sp.schemaP st.lines st.position).errors
    simp only [doParseSchema, List.length_append]
    omega
  · have h := take_length_le_cap MAX_ERRORS (sp.validP st.lines st.position st.parsedSchema).errors
    simp only [doParseValidation, List.length_append]
    omega
  · have h := take_length_le_cap MAX_ERRORS (sp.recsP st.lines st.position).errors
    simp only [doParseRecords, List.length_append]
    omega

/-- The invalid-value arm of the `*STRICT=` branch. -/
theorem parseStep_strict_invalid (sp : SubParsers) (st : PState) (l : String)
    (hget : st.lines.get? st.position = some l)
    (hpre : isPrefixL strictHeadT l.data = true)
    (hT : strictValueOf l ≠ "TRUE") (hF : strictValueOf l ≠ "FALSE") :
    parseStep sp st = .cont { st with
      errors := st.errors ++ [(some (st.position + 1),
        "Invalid *STRICT value: " ++ strictValueOf l ++ ". Expected TRUE or FALSE.")],
      position := st.position + 1 } := by
  unfold parseStep
  simp only [hget, hpre, if_true, hT, hF, if_false]

/-- The `*STRICT=TRUE` arm without an engaged focus. -/
theorem parseStep_strict_true_none (sp : SubParsers) (st : PState) (l : String)
    (hget : st.lines.get? st.position = some l)
    (hpre : isPrefixL strictHeadT l.data = true)
    (hv : strictValueOf l = "TRUE") (hf : st.focus = none) :
    parseStep sp st = .cont { st with strict := true, position := st.position + 1 } := by
  unfold parseStep
  simp only [hget, hpre, if_true, hv, hf]

/-- The `*STRICT=TRUE` arm with an engaged focus throws. -/
theorem parseStep_strict_true_some (sp : SubParsers) (st : PState) (l : String) (f : Focus)
    (hget : st.lines.get? st.position = some l)
    (hpre : isPrefixL strictHeadT l.data = true)
    (hv : strictValueOf l = "TRUE") (hf : st.focus = some f) :
    parseStep sp st = .thrown "Strict-Mode is enabled, please turn it off." := by
  unfold parseStep
  simp only [hget, hpre, if_true, hv, hf]

/-- C8: a `*STRICT=` line whose processed value is neither `TRUE` nor
`FALSE` appends exactly one diagnostic, leaves the `Strict` flag at its
prior value, advances the cursor past the line, and the loop continues (in
any focus mode, with any prior state). -/
theorem strict_invalid_one_diagnostic (sp : SubParsers) (fuel : Nat) (st : PState) (l : String)
    (hget : st.lines.get? st.position = some l)
    (hpre : isPrefixL strictHeadT l.data = true)
    (hT : strictValueOf l ≠ "TRUE") (hF : strictValueOf l ≠ "FALSE") :
    parseLines sp (fuel + 1) st =
      parseLines sp fuel { st with
        errors := st.errors ++ [(some (st.position + 1),
          "Invalid *STRICT value: " ++ strictValueOf l ++ ". Expected TRUE or FALSE.")],
        position := st.position + 1 } := by
  have h := parseStep_strict_invalid sp st l hget hpre hT hF
  simp only [parseLines, h]

/-- Witness for C8 at the concrete line `*STRICT=MAYBE` in a fresh
non-focused state. -/
theorem strict_invalid_one_diagnostic_witness :
    ((initState none ["*STRICT=MAYBE"]).lines.get?
        (initState none ["*STRICT=MAYBE"]).position = some "*STRICT=MAYBE") ∧
    parseLines specSubs 2 (initState none ["*STRICT=MAYBE"]) =
      parseLines specSubs 1 { initState none ["*STRICT=MAYBE"] with
        errors := [(some 1, "Invalid *STRICT value: " ++ strictValueOf "*STRICT=MAYBE" ++ ". Expected TRUE or FALSE.")],
        position := 1 } :=
  ⟨rfl,
   strict_invalid_one_diagnostic specSubs 1 (initState none ["*STRICT=MAYBE"]) "*STRICT=MAYBE"
     rfl (by decide) (by decide) (by decide)⟩

/-- C2 counterexample: after a full `@schema ... @end` section has been
opened and parsed (non-focused mode), a later `*STRICT=TRUE` line still
flips the `Strict` flag to `true`: the source only tests the focus field,
never whether a section has been opened. -/
theorem strict_after_section_counterexample :
    parseLines specSubs 20 (initState none ["@schema", "@end", "junk", "*STRICT=TRUE"]) =
      some (.ok { strict := true, schema := [], validations := [], records := [],
                  errors := [(none, "Missing required section: @records")] }) := by
  rfl

/-- C2 (amended): a `*STRICT=TRUE` directive is fatal exactly when a focus
section is engaged; otherwise it sets the `Strict` flag wherever it appears,
regardless of which sections have already been opened (the section-order
stack is arbitrary in the state below and does not influence the step). -/
theorem strict_true_gated_by_focus_only (sp : SubParsers) (fuel : Nat) (st : PState) (l : String)
    (hget : st.lines.get? st.position = some l)
    (hpre : isPrefixL strictHeadT l.data = true)
    (hv : strictValueOf l = "TRUE") :
    (st.focus = none →
      parseLines sp (fuel + 1) st =
        parseLines sp fuel { st with strict := true, position := st.position + 1 }) ∧
    (∀ f, st.focus = some f →
      parseLines sp (fuel + 1) st =
        some (.error "Strict-Mode is enabled, please turn it off.")) := by
  constructor
  · intro hf
    have h := parseStep_strict_true_none sp st l hget hpre hv hf
    simp only [parseLines, h]
  · intro f hf
    have h := parseStep_strict_true_some sp st l f hget hpre hv hf
    simp only [parseLines, h]

/-- Witness for C2 (amended): with `@schema` already recorded as opened,
`*STRICT=TRUE` is still accepted and sets the flag. -/
theorem strict_true_gated_by_focus_only_witness :
    (({ initState none ["*STRICT=TRUE"] with sectionOrder := ["@schema"] } : PState).focus = none) ∧
    parseLines specSubs 2 { initState none ["*STRICT=TRUE"] with sectionOrder := ["@schema"] } =
      parseLines specSubs 1 { initState none ["*STRICT=TRUE"] with
        sectionOrder := ["@schema"], strict := true, position := 1 } :=
  ⟨rfl,
   (strict_true_gated_by_focus_only specSubs 1
     { initState none ["*STRICT=TRUE"] with sectionOrder := ["@schema"] } "*STRICT=TRUE"
     rfl (by decide) (by decide)).1 rfl⟩

/-- Without an engaged focus, one loop iteration never throws. -/
theorem parseStep_no_throw (sp : SubParsers) (st : PState) (hf : st.focus = none) :
    ∀ m, parseStep sp st ≠ .thrown m := by
  intro m
  unfold parseStep
  cases hget : st.lines.get? st.position with
  | none => simp [hf]
  | some line =>
    simp only [hf]
    split_ifs <;> simp

/-- `checkSectionOrder` never changes the focus field. -/
theorem checkSectionOrder_focus (sec : String) (st : PState) :
    (checkSectionOrder sec st).focus = st.focus := by
  unfold checkSectionOrder
  split_ifs <;> rfl

/-- A continuing loop iteration never changes the focus field. -/
theorem parseStep_cont_focus (sp : SubParsers) (st st' : PState)
    (h : parseStep sp st = .cont st') : st'.focus = st.focus := by
  unfold parseStep at h
  cases hget : st.lines.get? st.position <;> simp only [hget] at h
  · cases hf : st.focus <;> simp only [hf] at h <;> cases h
  · cases hf : st.focus with
    | none =>
      simp only [hf] at h
      split_ifs at h <;> cases h <;>
        simp [doParseSchema, doParseValidation, doParseRecords, checkSectionOrder_focus, hf]
    | some f =>
      cases f <;> simp only [hf] at h <;> split_ifs at h <;> cases h <;> rfl

/-- Without an engaged focus, `parseLines` never returns a thrown error. -/
theorem parseLines_no_throw (sp : SubParsers) :
    ∀ fuel (st : PState) r, st.focus = none → parseLines sp fuel st = some r →
      ∃ v, r = .ok v := by
  intro fuel
  induction fuel with
  | zero => intro st r _ h; cases h
  | succ n ih =>
    intro st r hf h
    unfold parseLines at h
    cases hstep : parseStep sp st <;> simp only [hstep] at h
    · exact ih _ r (by rw [parseStep_cont_focus sp st _ hstep, hf]) h
    · exact ⟨_, (Option.some.injEq .. ▸ h).symm⟩
    · exact absurd hstep (parseStep_no_throw sp st hf _)

/-- C4: the section-order check appends exactly one diagnostic per
violation — for `@validations` and `@records`, one if `@schema` has not been
opened, plus one if the section itself was already opened (in particular,
`@validations` before `@schema` in a fresh state yields exactly one ordering
error, and the dead `@records`-after-`@validations` test contributes
nothing); for `@schema`, one if it was already opened.  The section is
always pushed onto the order stack (so it is still processed), and a
non-focused scan never aborts: `parseLines` never returns a thrown error. -/
theorem section_order_check_spec (sp : SubParsers) (st : PState) :
    ((checkSectionOrder "@validations" st).errors.length =
      st.errors.length + ((if "@schema" ∈ st.sectionOrder then 0 else 1) +
        (if "@validations" ∈ st.sectionOrder then 1 else 0))) ∧
    ((checkSectionOrder "@records" st).errors.length =
      st.errors.length + ((if "@schema" ∈ st.sectionOrder then 0 else 1) +
        (if "@records" ∈ st.sectionOrder then 1 else 0))) ∧
    ((checkSectionOrder "@schema" st).errors.length =
      st.errors.length + (if "@schema" ∈ st.sectionOrder then 1 else 0)) ∧
    (∀ s, s = "@schema" ∨ s = "@validations" ∨ s = "@records" →
      (checkSectionOrder s st).sectionOrder = st.sectionOrder ++ [s]) ∧
    (∀ fuel r, st.focus = none → parseLines sp fuel st = some r → ∃ v, r = .ok v) := by
  refine ⟨?_, ?_, ?_, ?_, fun fuel r hf h => parseLines_no_throw sp fuel st r hf h⟩
  · unfold checkSectionOrder
    rw [if_neg (by decide : ¬("@validations" : String) = "@schema"), if_pos rfl]
    by_cases h1 : "@schema" ∈ st.sectionOrder <;>
      by_cases h2 : "@validations" ∈ st.sectionOrder <;>
        simp [h1, h2]
  · unfold checkSectionOrder
    rw [if_neg (by decide : ¬("@records" : String) = "@schema"),
        if_neg (by decide : ¬("@records" : String) = "@validations"), if_pos rfl]
    have hdead : ¬("@validations" ∈ st.sectionOrder ∧ "@validations" ∉ st.sectionOrder) :=
      fun hc => hc.2 hc.1
    by_cases h1 : "@schema" ∈ st.sectionOrder <;>
      by_cases h3 : "@records" ∈ st.sectionOrder <;>
        simp [h1, h3, hdead]
  · unfold checkSectionOrder
    rw [if_pos rfl]
    by_cases h1 : "@schema" ∈ st.sectionOrder <;> simp [h1]
  · intro s hs
    rcases hs with rfl | rfl | rfl
    · unfold checkSectionOrder
      rw [if_pos rfl]
    · unfold checkSectionOrder
      rw [if_neg (by decide : ¬("@validations" : String) = "@schema"), if_pos rfl]
    · unfold checkSectionOrder
      rw [if_neg (by decide : ¬("@records" : String) = "@schema"),
          if_neg (by decide : ¬("@records" : String) = "@validations"), if_pos rfl]

/-- Witness for C4: in a fresh non-focused state, `@validations` before
`@schema` is chargeable to exactly one ordering error, the section is still
pushed, and the concrete scan finishes with an ordinary (non-thrown)
result. -/
theorem section_order_check_spec_witness :
    (("@validations" : String) = "@schema" ∨ ("@validations" : String) = "@validations" ∨
      ("@validations" : String) = "@records") ∧
    ((initState none ["@validations", "@end"]).focus = none) ∧
    (checkSectionOrder "@validations" (initState none ["@validations", "@end"])).errors.length = 1 ∧
    (checkSectionOrder "@validations" (initState none ["@validations", "@end"])).sectionOrder =
      ["@validations"] ∧
    (∃ v, (Except.ok { strict := false, schema := [], validations := [], records := [],
                       errors := [(some 1, "@validations must come after @schema."),
                                  (none, "Missing required section: @records")] } :
      Except String ParsedResult) = .ok v) :=
  ⟨Or.inr (Or.inl rfl), rfl,
   (section_order_check_spec specSubs (initState none ["@validations", "@end"])).1,
   (section_order_check_spec specSubs (initState none ["@validations", "@end"])).2.2.2.1
     "@validations" (Or.inr (Or.inl rfl)),
   (section_order_check_spec specSubs (initState none ["@validations", "@end"])).2.2.2.2
     5 _ rfl (by rfl)⟩

/-- Under an engaged focus, a continuing loop iteration never touches the
schema, validation or record accumulators. -/
theorem parseStep_cont_accums (sp : SubParsers) (st st' : PState) (f : Focus)
    (hf : st.focus = some f) (h : parseStep sp st = .cont st') :
    st'.parsedSchema = st.parsedSchema ∧ st'.validations = st.validations ∧
    st'.records = st.records := by
  cases f with
  | schema =>
    unfold parseStep at h
    cases hget : st.lines.get? st.position <;> simp only [hget, hf] at h
    · cases h
    · split_ifs at h <;> cases h <;> exact ⟨rfl, rfl, rfl⟩
  | records =>
    unfold parseStep at h
    cases hget : st.lines.get? st.position <;> simp only [hget, hf] at h
    · cases h
    · split_ifs at h <;> cases h <;> exact ⟨rfl, rfl, rfl⟩

/-- With records focus, an immediate return carries either the delegation
literal (schema and validations emptied) or, at end of input, the untouched
accumulators. -/
theorem parseStep_done_records (sp : SubParsers) (st : PState) (r : ParsedResult)
    (hf : st.focus = some .records) (h : parseStep sp st = .done r) :
    (r.schema = [] ∧ r.validations = []) ∨
    (r.schema = st.parsedSchema ∧ r.validations = st.validations) := by
  unfold parseStep at h
  cases hget : st.lines.get? st.position <;> simp only [hget, hf] at h
  · cases h
    exact Or.inr ⟨rfl, rfl⟩
  · split_ifs at h <;> cases h <;> exact Or.inl ⟨rfl, rfl⟩

/-- With schema focus, an immediate return carries either a delegation
literal (records emptied) or, at end of input, the untouched record
accumulator. -/
theorem parseStep_done_schema (sp : SubParsers) (st : PState) (r : ParsedResult)
    (hf : st.focus = some .schema) (h : parseStep sp st = .done r) :
    r.records = [] ∨ r.records = st.records := by
  unfold parseStep at h
  cases hget : st.lines.get? st.position <;> simp only [hget, hf] at h
  · cases h
    exact Or.inr rfl
  · split_ifs at h <;> cases h <;> exact Or.inl rfl

/-- C1 (amended): a focused parse can only ever populate its own side of
the result: starting from constructor-fresh accumulators, a successful
focused run returns empty schema and validations when focused on records,
and an empty record list when focused on schema.  (Under schema focus both
`@schema` and `@validations` delegate — see the counterexample — so the
schema itself need not be populated; records focus populates only
records.) -/
theorem focus_limits_result (sp : SubParsers) :
    ∀ fuel (st : PState) (v : ParsedResult),
      parseLines sp fuel st = some (.ok v) →
      (st.focus = some .records → st.parsedSchema = [] → st.validations = [] →
        v.schema = [] ∧ v.validations = []) ∧
      (st.focus = some .schema → st.records = [] → v.records = []) := by
  intro fuel
  induction fuel with
  | zero => intro st v h; cases h
  | succ n ih =>
    intro st v h
    unfold parseLines at h
    cases hstep : parseStep sp st <;> simp only [hstep] at h
    case cont st' =>
      constructor
      · intro hf hps hpv
        have hacc := parseStep_cont_accums sp st st' .records hf hstep
        have hfoc := parseStep_cont_focus sp st st' hstep
        exact (ih st' v h).1 (hfoc.trans hf) (hacc.1.trans hps) (hacc.2.1.trans hpv)
      · intro hf hr
        have hacc := parseStep_cont_accums sp st st' .schema hf hstep
        have hfoc := parseStep_cont_focus sp st st' hstep
        exact (ih st' v h).2 (hfoc.trans hf) (hacc.2.2.trans hr)
    case done r =>
      have hrv : r = v := by
        injection h with h'
        injection h'
      subst hrv
      constructor
      · intro hf hps hpv
        rcases parseStep_done_records sp st r hf hstep with ⟨h1, h2⟩ | ⟨h1, h2⟩
        · exact ⟨h1, h2⟩
        · exact ⟨h1.trans hps, h2.trans hpv⟩
      · intro hf hr
        rcases parseStep_done_schema sp st r hf hstep with h1 | h1
        · exact h1
        · exact h1.trans hr
    case thrown m =>
      exact absurd h (by simp)

/-- Witness for C1 (amended): a concrete run focused on records returns
with empty schema and validations. -/
theorem focus_limits_result_witness :
    ((initState (some .records) ["@records"]).focus = some .records) ∧
    (({ strict := false, schema := [], validations := [], records := [], errors := [] } :
        ParsedResult).schema = [] ∧
     ({ strict := false, schema := [], validations := [], records := [], errors := [] } :
        ParsedResult).validations = []) :=
  ⟨rfl,
   (focus_limits_result specSubs 2 (initState (some .records) ["@records"])
     { strict := false, schema := [], validations := [], records := [], errors := [] }
     (by rfl)).1 rfl rfl rfl⟩

/-- C1 counterexample: focused on `schema`, the non-matching `@validations`
directive is the one that delegates and forces the immediate return, so the
well-formed `@schema` section further down is never parsed: the call
returns with the schema empty (everything empty here), not with the focused
schema section populated from `a: Number`. -/
theorem focus_schema_counterexample :
    parseLines specSubs 10
        (initState (some .schema) ["@validations", "@end", "@schema", "a: Number", "@end"]) =
      some (.ok { strict := false, schema := [], validations := [], records := [],
                  errors := [] }) := by
  rfl

end SQON
